import Mathlib

/-!
Verification development for the EduSchedule timetable engine
(`eduschedule-backend/services/scheduler.py`, class `AdvancedTimetableScheduler`
and its solution collector `TimetableSolutionCollector`).

The Python scheduler builds one boolean decision variable per legal
(class, subject, teacher, room, day, period) tuple, posts hard constraints on
them, and hands every solver solution to a collector that computes quality
metrics.  We embed the deterministic parts shallowly: the variable (key)
enumeration, the constraints the model posts (a returned candidate is exactly a
set of keys satisfying them), the metrics computation, the objective value and
the final sort.  Record fields that the Python code reads with `.get(..., d)`
are modelled as `Option` fields (a missing key) or as fields whose default
value equals `d`.
-/

namespace EduSchedule

/-- A decision-variable index / assignment record:
(class_id, subject_id, teacher_id, room_id, day_of_week, period). -/
structure Key where
  c : Nat
  s : Nat
  t : Nat
  r : Nat
  d : Nat
  p : Nat
deriving DecidableEq, Repr

/-- One day's entry of a teacher availability document.  The Python code
accepts a dict (`{"unavailable": [...], "available": [...]}`, either key
optional), a bare list (taken as the available periods), or anything else
(all periods available). -/
inductive DayData where
  | dict (unavailable : List Nat) (available : Option (List Nat))
  | listAvail (available : List Nat)
  | other
deriving DecidableEq, Repr

/-- The `hard_constraints` sub-document of an availability document
(`availability.get('hard_constraints', {})`; each flag truthy-checked). -/
structure HardFlags where
  never_monday_morning : Bool := false
  no_last_period : Bool := false
  no_early_morning : Bool := false
deriving DecidableEq, Repr

/-- A teacher availability document: the day-keyed entries in insertion order
(Python dict iteration preserves it; a later entry for the same day wins),
plus the hard-constraint flags. -/
structure Availability where
  dayEntries : List (String × DayData) := []
  hard : HardFlags := {}
deriving DecidableEq, Repr

/-- A raw teacher preferences document, fields as read by
`_parse_preferences` and by the metrics code (`preferred_periods`). -/
structure Preferences where
  preferred_days : List String := []
  preferred_periods : List Nat := []
  avoided_periods : List Nat := []
  preferred_rooms : List Nat := []
  max_consecutive_periods : Option Nat := none
  min_break_between_classes : Option Nat := none
  max_daily_load : Option Nat := none
  prefers_morning : Bool := false
  prefers_afternoon : Bool := false
deriving DecidableEq, Repr

/-- A teacher record (`teacher.get('availability', {})`,
`teacher.get('preferences', {})`: missing documents are the defaults). -/
structure Teacher where
  id : Nat
  availability : Availability := {}
  preferences : Preferences := {}
deriving DecidableEq, Repr

/-- A room record; `capacity` is `Option` because `_find_suitable_rooms`
reads it as `room_data.get('capacity', 0)`. -/
structure Room where
  id : Nat
  capacity : Option Nat := none
  features : List Nat := []
deriving DecidableEq, Repr

/-- A subject record (`subject_data.get('required_features', [])`). -/
structure Subject where
  id : Nat
  required_features : List Nat := []
deriving DecidableEq, Repr

/-- A class record; `student_count` is `Option` because the code reads
`class_data.get('student_count', 0)`. -/
structure SchoolClass where
  id : Nat
  student_count : Option Nat := none
deriving DecidableEq, Repr

/-- A `class_subjects` entry; `periods_per_week` read as
`cs.get('periods_per_week', 1)`. -/
structure ClassSubject where
  c : Nat
  s : Nat
  periods_per_week : Option Nat := none
deriving DecidableEq, Repr

/-- A consecutive requirement; `class_id` read as `cr.get('class_id', 'all')`
(`none` stands for `'all'`), `consecutive_periods` as
`cr.get('consecutive_periods', 2)`. -/
structure ConsecutiveReq where
  s : Nat
  c : Option Nat := none
  consecutive_periods : Option Nat := none
deriving DecidableEq, Repr

/-- The constructor arguments of `AdvancedTimetableScheduler`.  `class_subjects`
and `consecutive_requirements` default to `None` in Python, and the code only
tests their truthiness, so `None` and `[]` coincide; we use `[]`. -/
structure Input where
  teachers : List Teacher
  rooms : List Room
  subjects : List Subject
  classes : List SchoolClass
  teacher_subjects : List (Nat × Nat)
  class_subjects : List ClassSubject := []
  consecutive_requirements : List ConsecutiveReq := []
deriving DecidableEq, Repr

/-- `self.days = list(range(5))`. -/
def days : List Nat := [0, 1, 2, 3, 4]

/-- `self.periods = list(range(8))`. -/
def periodsL : List Nat := [0, 1, 2, 3, 4, 5, 6, 7]

/-- The set of all periods, used for the `set(self.periods)` defaults. -/
def allPeriods : Finset Nat := periodsL.toFinset

/-- Python dict comprehension `{x['id']: x for x in l}`: the record stored
under key `k` is the last one with that id. -/
def lookupLast {α : Type} (key : α → Nat) (l : List α) (k : Nat) : Option α :=
  (l.filter fun a => key a == k).getLast?

/-- The key set of `{x['id']: x for x in l}` (order irrelevant for our
claims, so we use `dedup`). -/
def idsOf {α : Type} (key : α → Nat) (l : List α) : List Nat :=
  (l.map key).dedup

def classIds (inp : Input) : List Nat := idsOf SchoolClass.id inp.classes
def subjectIds (inp : Input) : List Nat := idsOf Subject.id inp.subjects
def roomIds (inp : Input) : List Nat := idsOf Room.id inp.rooms
def teacherIds (inp : Input) : List Nat := idsOf Teacher.id inp.teachers

/-- The `day_mapping` of `_parse_availability` / `_parse_preferences`,
applied to the lowercased name. -/
def dayIndex (name : String) : Option Nat :=
  match name.toLower with
  | "monday" => some 0
  | "mon" => some 0
  | "tuesday" => some 1
  | "tue" => some 1
  | "wednesday" => some 2
  | "wed" => some 2
  | "thursday" => some 3
  | "thu" => some 3
  | "friday" => some 4
  | "fri" => some 4
  | _ => none

/-- The available-period set a single day entry denotes:
dict → `set(available or all) - set(unavailable)`; list → that set;
other → all periods. -/
def dayDataSet : DayData → Finset Nat
  | .dict unavailable available =>
      (available.getD periodsL).toFinset \ unavailable.toFinset
  | .listAvail available => available.toFinset
  | .other => allPeriods

/-- The value `parsed[d]` holds after the day-entry loop of
`_parse_availability`: the last entry whose name maps to day `d` wins;
`none` if no entry mentions `d`. -/
def baseAvail (av : Availability) (d : Nat) : Option (Finset Nat) :=
  ((av.dayEntries.filter fun e => dayIndex e.1 == some d).getLast?).map
    fun e => dayDataSet e.2

/-- `parsed` after the `never_monday_morning` hard flag
(`parsed[0] = parsed.get(0, set(periods)) - {0, 1, 2}`). -/
def availAfterNmm (av : Availability) (d : Nat) : Option (Finset Nat) :=
  if av.hard.never_monday_morning ∧ d = 0 then
    some ((baseAvail av 0).getD allPeriods \ {0, 1, 2})
  else baseAvail av d

/-- `parsed` after the `no_last_period` hard flag (for every day,
remove `max(self.periods)`). -/
def availAfterNlp (av : Availability) (d : Nat) : Option (Finset Nat) :=
  if av.hard.no_last_period ∧ d ∈ days then
    some ((availAfterNmm av d).getD allPeriods \ {periodsL.foldl max 0})
  else availAfterNmm av d

/-- `parsed` after the `no_early_morning` hard flag (for every day,
remove period 0). -/
def availAfterNem (av : Availability) (d : Nat) : Option (Finset Nat) :=
  if av.hard.no_early_morning ∧ d ∈ days then
    some ((availAfterNlp av d).getD allPeriods \ {0})
  else availAfterNlp av d

/-- `_parse_availability`: after the default fill, every day in `days` maps
to its parsed set or to all periods; other keys are absent
(`.get(d, set())` yields the empty set for them). -/
def parseAvailability (av : Availability) (d : Nat) : Finset Nat :=
  if d ∈ days then (availAfterNem av d).getD allPeriods else ∅

/-- `self.teacher_availability.get(t, {}).get(d, set())`: the availability
dict is keyed by the ids of `self.teachers` (last record with an id wins). -/
def availOf (inp : Input) (t d : Nat) : Finset Nat :=
  match lookupLast Teacher.id inp.teachers t with
  | some te => parseAvailability te.availability d
  | none => ∅

/-- `self.teacher_qualifications[t]`: the subject ids appended for teacher
`t` while scanning `teacher_subjects`. -/
def qualSubjects (inp : Input) (t : Nat) : List Nat :=
  (inp.teacher_subjects.filter fun ts => ts.1 == t).map Prod.snd

/-- The `qualified_teachers` list of `_create_variables`: the keys of the
qualification dict (teacher ids occurring in `teacher_subjects`) whose
subject list contains `s`. -/
def qualifiedTeachers (inp : Input) (s : Nat) : List Nat :=
  ((inp.teacher_subjects.map Prod.fst).dedup).filter fun t =>
    (qualSubjects inp t).contains s

/-- `self.subjects.get(s, {}).get('required_features', [])`. -/
def requiredFeatures (inp : Input) (s : Nat) : List Nat :=
  match lookupLast Subject.id inp.subjects s with
  | some su => su.required_features
  | none => []

/-- `self.classes.get(c, {}).get('student_count', 0)`. -/
def studentCount (inp : Input) (c : Nat) : Nat :=
  match lookupLast SchoolClass.id inp.classes c with
  | some cl => cl.student_count.getD 0
  | none => 0

/-- `_find_suitable_rooms(s, c)`: iterate the room dict, skip rooms whose
capacity (`.get('capacity', 0)`) is below the class's student count
(`.get('student_count', 0)`) or whose features miss a required feature. -/
def suitableRooms (inp : Input) (s c : Nat) : List Nat :=
  (roomIds inp).filter fun r =>
    match lookupLast Room.id inp.rooms r with
    | some rm =>
        decide (studentCount inp c ≤ rm.capacity.getD 0) &&
        (requiredFeatures inp s).all fun f => rm.features.contains f
    | none => false

/-- `self.class_subject_requirements[c][s]` as a lookup: with a non-empty
`class_subjects` list the last entry for `(c, s)` wins and its
`periods_per_week` defaults to 1; with an empty (or `None`) list every
class needs every subject twice a week. -/
def reqP (inp : Input) (c s : Nat) : Option Nat :=
  if inp.class_subjects.isEmpty then
    if c ∈ classIds inp ∧ s ∈ subjectIds inp then some 2 else none
  else
    ((inp.class_subjects.filter fun cs => cs.c == c && cs.s == s).getLast?).map
      fun cs => cs.periods_per_week.getD 1

/-- The per-class requirement dict
`self.class_subject_requirements.get(c, {})` as an association list
(subject, periods_per_week), subjects in first-mention order. -/
def requiredSubjects (inp : Input) (c : Nat) : List (Nat × Nat) :=
  if inp.class_subjects.isEmpty then
    (subjectIds inp).map fun s => (s, 2)
  else
    (((inp.class_subjects.filter fun cs => cs.c == c).map ClassSubject.s).dedup).map
      fun s => (s, (reqP inp c s).getD 0)

/-- All entries of `self.class_subject_requirements` (the pairs the
frequency-constraint loop iterates), with their period counts. -/
def reqTriples (inp : Input) : List (Nat × Nat × Nat) :=
  if inp.class_subjects.isEmpty then
    (classIds inp).flatMap fun c => (subjectIds inp).map fun s => (c, s, 2)
  else
    ((inp.class_subjects.map fun cs => (cs.c, cs.s)).dedup).map
      fun cs => (cs.1, cs.2, (reqP inp cs.1 cs.2).getD 0)

/-- `self.consecutive_requirements[c][s]`: requirements with
`class_id = 'all'` fan out over all classes; the last write wins;
`consecutive_periods` defaults to 2. -/
def consB (inp : Input) (c s : Nat) : Option Nat :=
  ((inp.consecutive_requirements.filter fun cr =>
      cr.s == s && (cr.c == some c || (cr.c == none && (classIds inp).contains c))).getLast?).map
    fun cr => cr.consecutive_periods.getD 2

/-- The (class, subject) keys of the consecutive-requirement dict. -/
def consPairs (inp : Input) : List (Nat × Nat) :=
  (inp.consecutive_requirements.flatMap fun cr =>
    match cr.c with
    | some c => [(c, cr.s)]
    | none => (classIds inp).map fun c => (c, cr.s)).dedup

/-- An index of `self.consecutive_vars`:
(class, subject, day, start_period, consecutive_count). -/
structure ConsKey where
  c : Nat
  s : Nat
  d : Nat
  start : Nat
  count : Nat
deriving DecidableEq, Repr

/-- `_create_consecutive_variables`: one variable per requirement, day and
`start_period in range(len(periods) - count + 1)` (empty when the count
exceeds the day length; `periodsL.length + 1 - count` matches Python's
possibly-negative range bound under truncated subtraction). -/
def consKeys (inp : Input) : List ConsKey :=
  (consPairs inp).flatMap fun cs =>
    match consB inp cs.1 cs.2 with
    | some b =>
        days.flatMap fun d =>
          (List.range (periodsL.length + 1 - b)).map fun st =>
            ⟨cs.1, cs.2, d, st, b⟩
    | none => []

/-- `_create_variables`: one decision variable per legal
(class, subject, teacher, room, day, period) tuple — the class is iterated
over the class dict, the subject over the class's requirement dict, the
teacher over the qualified teachers, the room over the suitable rooms, and
the period is kept only when the teacher is available then. -/
def assignmentKeys (inp : Input) : List Key :=
  (classIds inp).flatMap fun c =>
    (requiredSubjects inp c).flatMap fun sp =>
      (qualifiedTeachers inp sp.1).flatMap fun t =>
        (suitableRooms inp sp.1 c).flatMap fun r =>
          days.flatMap fun d =>
            (periodsL.filter fun p => decide (p ∈ availOf inp t d)).map fun p =>
              ⟨c, sp.1, t, r, d, p⟩

/-! ## The constraints posted on the model

A solution delivered by the solver callback is exactly a set of keys whose
variables are 1; it satisfies every constraint `solve` posted.  We represent
it as a duplicate-free list of created keys. -/

/-- Number of chosen assignments of teacher `t` at slot (`d`, `p`). -/
def countTDP (sol : List Key) (t d p : Nat) : Nat :=
  sol.countP fun k => k.t == t && k.d == d && k.p == p

/-- Number of chosen assignments in room `r` at slot (`d`, `p`). -/
def countRDP (sol : List Key) (r d p : Nat) : Nat :=
  sol.countP fun k => k.r == r && k.d == d && k.p == p

/-- Number of chosen assignments of class `c` at slot (`d`, `p`). -/
def countCDP (sol : List Key) (c d p : Nat) : Nat :=
  sol.countP fun k => k.c == c && k.d == d && k.p == p

/-- Number of chosen assignments of pair (`c`, `s`). -/
def countCS (sol : List Key) (c s : Nat) : Nat :=
  sol.countP fun k => k.c == c && k.s == s

/-- The decision variables mentioning pair (`c`, `s`)
(the `relevant_vars` of `_add_subject_frequency_constraints`). -/
def keysCS (inp : Input) (c s : Nat) : List Key :=
  (assignmentKeys inp).filter fun k => k.c == c && k.s == s

/-- The decision variables inside one consecutive block
(the `block_vars` of `_add_consecutive_period_constraints`). -/
def blockKeys (inp : Input) (ck : ConsKey) : List Key :=
  (assignmentKeys inp).filter fun k =>
    k.c == ck.c && k.s == ck.s && k.d == ck.d &&
    decide (ck.start ≤ k.p) && decide (k.p < ck.start + ck.count)

/-- Chosen assignments inside one consecutive block. -/
def blockCount (sol : List Key) (ck : ConsKey) : Nat :=
  sol.countP fun k =>
    k.c == ck.c && k.s == ck.s && k.d == ck.d &&
    decide (ck.start ≤ k.p) && decide (k.p < ck.start + ck.count)

/-- `_add_teacher_conflict_constraints`: `AddAtMostOne` over each teacher of
the teacher dict and each slot. -/
def teacherConflictOk (inp : Input) (sol : List Key) : Prop :=
  ∀ t ∈ teacherIds inp, ∀ d ∈ days, ∀ p ∈ periodsL, countTDP sol t d p ≤ 1

/-- `_add_room_conflict_constraints`. -/
def roomConflictOk (inp : Input) (sol : List Key) : Prop :=
  ∀ r ∈ roomIds inp, ∀ d ∈ days, ∀ p ∈ periodsL, countRDP sol r d p ≤ 1

/-- `_add_class_conflict_constraints`. -/
def classConflictOk (inp : Input) (sol : List Key) : Prop :=
  ∀ c ∈ classIds inp, ∀ d ∈ days, ∀ p ∈ periodsL, countCDP sol c d p ≤ 1

/-- `_add_subject_frequency_constraints`: for every entry of the requirement
dict, `sum(relevant_vars) == periods_needed` — but only when
`relevant_vars` is non-empty. -/
def freqOk (inp : Input) (sol : List Key) : Prop :=
  ∀ e ∈ reqTriples inp, keysCS inp e.1 e.2.1 ≠ [] → countCS sol e.1 e.2.1 = e.2.2

/-- `_add_consecutive_period_constraints`: each consecutive variable (valued
by `f`) enforces, when true and when its block has variables at all, that
exactly `consecutive_count` assignments of the pair fall inside its block. -/
def consecutiveOk (inp : Input) (sol : List Key) (f : ConsKey → Bool) : Prop :=
  ∀ ck ∈ consKeys inp, blockKeys inp ck ≠ [] → f ck = true →
    blockCount sol ck = ck.count

/-- `self.teacher_preferences[t]['max_daily_load']`
(`preferences.get('max_daily_load', 6)`). -/
def maxDailyLoad (inp : Input) (t : Nat) : Nat :=
  match lookupLast Teacher.id inp.teachers t with
  | some te => te.preferences.max_daily_load.getD 6
  | none => 6

/-- `_add_workload_constraints`: per teacher, at most `max_daily_load`
assignments a day and at most 30 a week. -/
def workloadOk (inp : Input) (sol : List Key) : Prop :=
  ∀ t ∈ teacherIds inp,
    (∀ d ∈ days, (sol.countP fun k => k.t == t && k.d == d) ≤ maxDailyLoad inp t) ∧
    (sol.countP fun k => k.t == t) ≤ 30

/-- A full satisfying assignment of the CP model: the keys whose variables
are 1 (duplicate-free, all created by `_create_variables`), together with a
valuation `f` of the consecutive variables, meeting every posted
constraint. -/
def isSolution (inp : Input) (sol : List Key) (f : ConsKey → Bool) : Prop :=
  sol.Nodup ∧ (∀ k ∈ sol, k ∈ assignmentKeys inp) ∧
  teacherConflictOk inp sol ∧ roomConflictOk inp sol ∧ classConflictOk inp sol ∧
  freqOk inp sol ∧ consecutiveOk inp sol f ∧ workloadOk inp sol

instance (inp : Input) (sol : List Key) (f : ConsKey → Bool) :
    Decidable (isSolution inp sol f) := by
  unfold isSolution teacherConflictOk roomConflictOk classConflictOk freqOk
    consecutiveOk workloadOk
  infer_instance

/-- A candidate assignment list the solver can hand to the collector: some
valuation of the consecutive variables completes it to a satisfying
assignment of the model. -/
def isCandidate (inp : Input) (sol : List Key) : Prop :=
  ∃ f : ConsKey → Bool, isSolution inp sol f

/-- Choosing every consecutive variable false always satisfies the
consecutive constraints, so `isSolution` with the all-false valuation is
enough to be a candidate. -/
theorem isCandidate_of_allFalse {inp : Input} {sol : List Key}
    (h : isSolution inp sol fun _ => false) : isCandidate inp sol :=
  ⟨_, h⟩

/-! ## The collector's metrics (`_calculate_solution_metrics`)

The collector receives `self.teachers` (the raw records) and the solution's
assignment list, groups the periods by teacher and day (dict insertion
order = first appearance; appends keep list order), sorts each day's
periods in place, and derives gaps, preference violations and the score. -/

/-- Stable insertion into an ascending list. -/
def insertSorted (x : Nat) : List Nat → List Nat
  | [] => [x]
  | y :: ys => if x ≤ y then x :: y :: ys else y :: insertSorted x ys

/-- `periods.sort()`: ascending in-place sort. -/
def sortPeriods : List Nat → List Nat
  | [] => []
  | x :: xs => insertSorted x (sortPeriods xs)

/-- The teachers appearing in a solution, in dict-key order modulo
deduplication (order never matters below: only sums over them do). -/
def solTeachers (sol : List Key) : List Nat :=
  (sol.map Key.t).dedup

/-- The days on which teacher `t` teaches in `sol`
(the keys of `teacher_schedules[t]`). -/
def solDays (sol : List Key) (t : Nat) : List Nat :=
  ((sol.filter fun k => k.t == t).map Key.d).dedup

/-- `teacher_schedules[t][d]`: the periods appended for teacher `t` on day
`d`, in solution order. -/
def schedPeriods (sol : List Key) (t d : Nat) : List Nat :=
  (sol.filter fun k => k.t == t && k.d == d).map Key.p

/-- The gap loop body: one count per adjacent pair of the sorted period
list whose difference exceeds 1. -/
def gapBools : List Nat → Nat
  | p1 :: p2 :: rest => (if p2 - p1 > 1 then 1 else 0) + gapBools (p2 :: rest)
  | _ => 0

/-- `metrics['gaps_count']`: the gap loop summed over every grouped teacher
and day. -/
def gapsCount (sol : List Key) : Nat :=
  ((solTeachers sol).map fun t =>
    ((solDays sol t).map fun d => gapBools (sortPeriods (schedPeriods sol t d))).sum).sum

/-- `self.__teachers.get(t, {}).get('preferences', {}).get('preferred_periods', [])`
as read by the metrics code (the raw document, not the parsed one). -/
def rawPrefPeriods (teachers : List Teacher) (t : Nat) : List Nat :=
  match lookupLast Teacher.id teachers t with
  | some te => te.preferences.preferred_periods
  | none => []

/-- `metrics['preference_violations']`: for each grouped teacher with a
non-empty raw `preferred_periods` list, one count per scheduled period
outside that list. -/
def violationsCount (teachers : List Teacher) (sol : List Key) : Nat :=
  ((solTeachers sol).map fun t =>
    if (rawPrefPeriods teachers t).isEmpty then 0
    else ((solDays sol t).map fun d =>
      (sortPeriods (schedPeriods sol t d)).countP fun p =>
        !(rawPrefPeriods teachers t).contains p).sum).sum

/-- The metrics record the collector attaches to a solution (the
`teacher_workload` dict is reproducible from the assignments and unused by
the claims, so it is omitted). -/
structure Metrics where
  total_assignments : Nat
  teachers_used : Nat
  rooms_used : Nat
  gaps_count : Nat
  preference_violations : Nat
  total_score : Int
deriving DecidableEq, Repr

/-- `_calculate_solution_metrics`. -/
def calcMetrics (teachers : List Teacher) (sol : List Key) : Metrics where
  total_assignments := sol.length
  teachers_used := (sol.map Key.t).dedup.length
  rooms_used := (sol.map Key.r).dedup.length
  gaps_count := gapsCount sol
  preference_violations := violationsCount teachers sol
  total_score :=
    (sol.length : Int) * 10 - (gapsCount sol : Int) * 5 -
      (violationsCount teachers sol : Int) * 2

/-- A collected candidate: the assignment list with its metrics. -/
structure Candidate where
  assignments : List Key
  metrics : Metrics
deriving DecidableEq, Repr

/-- The candidate the collector appends for a solution `sol`. -/
def mkCandidate (teachers : List Teacher) (sol : List Key) : Candidate :=
  ⟨sol, calcMetrics teachers sol⟩

/-! ## The final sort of `solve`

`solutions.sort(key=lambda x: x['metrics'].get('total_score', 0), reverse=True)`
— Python's sort is stable, so with `reverse=True` candidates of equal score
keep their collection order.  A stable descending sort is unique, so the
stable insertion sort below computes exactly the list Python returns. -/

/-- Insert a candidate collected *before* the already-sorted ones: it goes
in front of every candidate of equal or smaller score. -/
def insertCand (x : Candidate) : List Candidate → List Candidate
  | [] => [x]
  | y :: ys =>
      if y.metrics.total_score ≤ x.metrics.total_score then x :: y :: ys
      else y :: insertCand x ys

/-- The sorted candidate list `solve` returns for a given collector list. -/
def sortCandidates : List Candidate → List Candidate
  | [] => []
  | x :: xs => insertCand x (sortCandidates xs)

/-! ## The solver objective (`_add_preferences_objective`)

The objective is a linear expression over the decision variables; we embed
its value on a solution.  Bonus terms: +3 per assignment on a preferred
day, +2 per assignment in a preferred period.  Penalty terms: +5 per
assignment in an avoided period, +2 per afternoon assignment of a teacher
who prefers mornings, +2 per morning assignment of a teacher who prefers
afternoons.  `preferred_rooms` is parsed but used by no term. -/

/-- `_parse_preferences` output: the fields the objective reads. -/
structure ParsedPrefs where
  preferred_days : Finset Nat
  preferred_periods : Finset Nat
  avoided_periods : Finset Nat
  preferred_rooms : Finset Nat
  prefers_morning : Bool
  prefers_afternoon : Bool
deriving DecidableEq

/-- `_parse_preferences` (the fields relevant to the objective; numeric
limits are read through `maxDailyLoad` above). -/
def parsePreferences (p : Preferences) : ParsedPrefs where
  preferred_days := (p.preferred_days.filterMap dayIndex).toFinset
  preferred_periods := p.preferred_periods.toFinset
  avoided_periods := p.avoided_periods.toFinset
  preferred_rooms := p.preferred_rooms.toFinset
  prefers_morning := p.prefers_morning
  prefers_afternoon := p.prefers_afternoon

/-- `self.teacher_preferences[t]` (keyed like the teacher dict). -/
def prefsOf (inp : Input) (t : Nat) : ParsedPrefs :=
  match lookupLast Teacher.id inp.teachers t with
  | some te => parsePreferences te.preferences
  | none => parsePreferences {}

/-- Chosen assignments of teacher `t` on day `d`. -/
def countTD (sol : List Key) (t d : Nat) : Nat :=
  sol.countP fun k => k.t == t && k.d == d

/-- Chosen assignments of teacher `t` in period `p`. -/
def countTP (sol : List Key) (t p : Nat) : Nat :=
  sol.countP fun k => k.t == t && k.p == p

/-- Value of `sum(preference_terms)` on a solution. -/
def bonusValue (inp : Input) (sol : List Key) : Nat :=
  ((teacherIds inp).map fun t =>
    let pr := prefsOf inp t
    (∑ d ∈ pr.preferred_days, 3 * countTD sol t d) +
    (∑ p ∈ pr.preferred_periods, 2 * countTP sol t p)).sum

/-- Value of `sum(penalty_terms)` on a solution. -/
def penaltyValue (inp : Input) (sol : List Key) : Nat :=
  ((teacherIds inp).map fun t =>
    let pr := prefsOf inp t
    (∑ p ∈ pr.avoided_periods, 5 * countTP sol t p) +
    (if pr.prefers_morning then
      2 * sol.countP fun k => k.t == t && decide (4 ≤ k.p) else 0) +
    (if pr.prefers_afternoon then
      2 * sol.countP fun k => k.t == t && decide (k.p < 4) else 0)).sum

/-- The value of the maximized expression
`total_preference - total_penalty` on a solution. -/
def objectiveValue (inp : Input) (sol : List Key) : Int :=
  (bonusValue inp sol : Int) - (penaltyValue inp sol : Int)

/-! ## General helper lemmas -/

theorem insertSorted_perm (x : Nat) (l : List Nat) :
    (insertSorted x l).Perm (x :: l) := by
  induction l with
  | nil => exact List.Perm.refl _
  | cons y ys ih =>
      unfold insertSorted
      split
      · exact List.Perm.refl _
      · exact ((ih.cons y).trans (List.Perm.swap x y ys))

theorem sortPeriods_perm (l : List Nat) : (sortPeriods l).Perm l := by
  induction l with
  | nil => exact List.Perm.refl _
  | cons x xs ih =>
      exact (insertSorted_perm x (sortPeriods xs)).trans (ih.cons x)

theorem dedup_toFinset {α : Type} [DecidableEq α] (l : List α) :
    l.dedup.toFinset = l.toFinset := by
  ext a
  simp [List.mem_dedup]

/-- A sum of `g` over the keys of a Python dict (`dedup` of the insertion
list) equals the `Finset` sum over the distinct keys. -/
theorem sum_map_dedup (l : List Nat) (g : Nat → Nat) :
    ((l.dedup).map g).sum = ∑ k ∈ l.toFinset, g k := by
  rw [← dedup_toFinset l, List.sum_toFinset g (List.nodup_dedup l)]

/-- Counting fiberwise: summing, over a set of key values covering a list,
the elements whose key is that value and that satisfy a (key-indexed)
predicate, counts each element once at its own key. -/
theorem sum_countP_fiber {α : Type} (l : List α) (key : α → Nat)
    (q : Nat → α → Bool) (S : Finset Nat) (h : ∀ a ∈ l, key a ∈ S) :
    (∑ k ∈ S, l.countP fun a => key a == k && q k a) =
      l.countP fun a => q (key a) a := by
  induction l with
  | nil => simp
  | cons a l ih =>
      have hl : ∀ b ∈ l, key b ∈ S := fun b hb => h b (List.mem_cons_of_mem a hb)
      simp only [List.countP_cons]
      rw [Finset.sum_add_distrib, ih hl]
      congr 1
      have hpt : ∀ k ∈ S,
          (if (key a == k && q k a) = true then 1 else 0) =
            if key a = k then (if q k a = true then 1 else 0) else 0 := by
        intro k _
        by_cases hk : key a = k
        · subst hk
          simp
        · simp [hk, (by simpa using hk : (key a == k) = false)]
      rw [Finset.sum_congr rfl hpt, Finset.sum_ite_eq S (key a)
        (fun k => if q k a = true then 1 else 0)]
      simp [h a (List.mem_cons_self a l)]

/-- Summing a fibered count over an arbitrary key set: keys outside the set
are simply not counted. -/
theorem sum_countP_mem {α : Type} (l : List α) (key : α → Nat)
    (q : α → Bool) (S : Finset Nat) :
    (∑ k ∈ S, l.countP fun a => q a && key a == k) =
      l.countP fun a => q a && decide (key a ∈ S) := by
  induction l with
  | nil => simp
  | cons a l ih =>
      simp only [List.countP_cons]
      rw [Finset.sum_add_distrib, ih]
      congr 1
      have hpt : ∀ k ∈ S,
          (if (q a && key a == k) = true then 1 else 0) =
            if key a = k then (if q a = true then 1 else 0) else 0 := by
        intro k _
        by_cases hk : key a = k
        · subst hk
          simp
        · simp [hk, (by simpa using hk : (key a == k) = false)]
      rw [Finset.sum_congr rfl hpt, Finset.sum_ite_eq S (key a)
        (fun _ => if q a = true then 1 else 0)]
      by_cases hm : key a ∈ S <;> by_cases hq : q a = true <;> simp [hm, hq]

/-! ## Structural lemmas about the variable enumeration -/

theorem mem_idsOf_of_lookupLast {α : Type} {key : α → Nat} {l : List α}
    {k : Nat} {a : α} (h : lookupLast key l k = some a) : k ∈ idsOf key l := by
  have ha : a ∈ l.filter fun x => key x == k := List.mem_of_mem_getLast? h
  rw [List.mem_filter] at ha
  have : key a = k := by simpa using ha.2
  subst this
  exact List.mem_dedup.2 (List.mem_map_of_mem key ha.1)

theorem lookupLast_isSome_of_mem {α : Type} {key : α → Nat} {l : List α}
    {k : Nat} (h : k ∈ idsOf key l) : ∃ a, lookupLast key l k = some a := by
  rw [idsOf, List.mem_dedup, List.mem_map] at h
  obtain ⟨a, ha, hk⟩ := h
  have : l.filter (fun x => key x == k) ≠ [] := by
    intro hnil
    have hmem : a ∈ l.filter (fun x => key x == k) :=
      List.mem_filter.2 ⟨ha, by simp [hk]⟩
    rw [hnil] at hmem
    exact absurd hmem (List.not_mem_nil a)
  obtain ⟨b, hb⟩ := Option.ne_none_iff_exists'.1
    (mt List.getLast?_eq_none_iff.1 this)
  exact ⟨b, hb⟩

/-- Membership in `_find_suitable_rooms`' result states exactly the two
checks on the room record. -/
theorem mem_suitableRooms {inp : Input} {s c r : Nat} :
    r ∈ suitableRooms inp s c ↔
      ∃ rm, lookupLast Room.id inp.rooms r = some rm ∧
        studentCount inp c ≤ rm.capacity.getD 0 ∧
        ∀ f ∈ requiredFeatures inp s, f ∈ rm.features := by
  unfold suitableRooms
  rw [List.mem_filter]
  constructor
  · rintro ⟨hr, hcond⟩
    cases hlk : lookupLast Room.id inp.rooms r with
    | none => rw [hlk] at hcond; simp at hcond
    | some rm =>
        rw [hlk] at hcond
        simp only [Bool.and_eq_true, decide_eq_true_eq, List.all_eq_true] at hcond
        exact ⟨rm, rfl, hcond.1, fun f hf => by
          simpa using hcond.2 f hf⟩
  · rintro ⟨rm, hlk, hcap, hfeat⟩
    refine ⟨mem_idsOf_of_lookupLast hlk, ?_⟩
    rw [hlk]
    simp only [Bool.and_eq_true, decide_eq_true_eq, List.all_eq_true]
    exact ⟨hcap, fun f hf => by simpa using hfeat f hf⟩

/-- A qualified teacher for `s` is exactly one with a `(t, s)` entry in
`teacher_subjects`. -/
theorem mem_qualifiedTeachers {inp : Input} {s t : Nat} :
    t ∈ qualifiedTeachers inp s ↔ (t, s) ∈ inp.teacher_subjects := by
  unfold qualifiedTeachers qualSubjects
  rw [List.mem_filter, List.mem_dedup]
  constructor
  · rintro ⟨-, hc⟩
    rw [List.elem_iff, List.mem_map] at hc
    obtain ⟨ts, hts, hsnd⟩ := hc
    rw [List.mem_filter] at hts
    have h1 : ts.1 = t := by simpa using hts.2
    have : ts = (t, s) := by
      cases ts; simp_all
    exact this ▸ hts.1
  · intro hts
    constructor
    · exact List.mem_map_of_mem Prod.fst hts
    · rw [List.elem_iff, List.mem_map]
      exact ⟨(t, s), List.mem_filter.2 ⟨hts, by simp⟩, rfl⟩

/-- Unfolding of membership in the created decision variables. -/
theorem mem_assignmentKeys {inp : Input} {k : Key} :
    k ∈ assignmentKeys inp ↔
      k.c ∈ classIds inp ∧
      (∃ sp ∈ requiredSubjects inp k.c, sp.1 = k.s) ∧
      k.t ∈ qualifiedTeachers inp k.s ∧
      k.r ∈ suitableRooms inp k.s k.c ∧
      k.d ∈ days ∧ k.p ∈ periodsL ∧ k.p ∈ availOf inp k.t k.d := by
  unfold assignmentKeys
  simp only [List.mem_flatMap, List.mem_map, List.mem_filter,
    decide_eq_true_eq]
  constructor
  · rintro ⟨c, hc, sp, hsp, t, ht, r, hr, d, hd, p, ⟨⟨hp, hpav⟩, hk⟩⟩
    cases k
    cases hk
    exact ⟨hc, ⟨sp, hsp, rfl⟩, ht, hr, hd, hp, hpav⟩
  · rintro ⟨hc, ⟨sp, hsp, hs⟩, ht, hr, hd, hp, hpav⟩
    exact ⟨k.c, hc, sp, hsp, k.t, hs ▸ ht, k.r, hs ▸ hr, k.d, hd, k.p,
      ⟨⟨hp, hpav⟩, by cases k; simp_all⟩⟩

/-- Every created key's teacher id is a key of the teacher dict: its
availability set is non-empty, which forces a teacher record. -/
theorem mem_teacherIds_of_key {inp : Input} {k : Key}
    (h : k ∈ assignmentKeys inp) : k.t ∈ teacherIds inp := by
  obtain ⟨-, -, -, -, -, -, hpav⟩ := mem_assignmentKeys.1 h
  unfold availOf at hpav
  cases hlk : lookupLast Teacher.id inp.teachers k.t with
  | none => rw [hlk] at hpav; simp at hpav
  | some te => exact mem_idsOf_of_lookupLast hlk

/-- The remaining coordinate ranges of a created key. -/
theorem key_fields_mem {inp : Input} {k : Key} (h : k ∈ assignmentKeys inp) :
    k.c ∈ classIds inp ∧ k.r ∈ roomIds inp ∧ k.d ∈ days ∧ k.p ∈ periodsL := by
  obtain ⟨hc, -, -, hr, hd, hp, -⟩ := mem_assignmentKeys.1 h
  refine ⟨hc, ?_, hd, hp⟩
  unfold suitableRooms at hr
  exact (List.mem_filter.1 hr).1

/-! ## Spec-side comparison definitions

The following definitions follow the specification's words (not the code);
they exist to be compared against the embedded code. -/

/-- The spec's gap measure for one sorted period list: the sum of
`p[i+1] - p[i] - 1` over adjacent pairs. -/
def gapWidths : List Nat → Nat
  | p1 :: p2 :: rest => (p2 - p1 - 1) + gapWidths (p2 :: rest)
  | _ => 0

/-- The spec's `gaps_count`: total empty intra-day slots between first and
last taught period, summed over every teacher and day. -/
def specGapsTotal (sol : List Key) : Nat :=
  ∑ t ∈ (sol.map Key.t).toFinset, ∑ d ∈ (sol.map Key.d).toFinset,
    gapWidths (sortPeriods (schedPeriods sol t d))

/-- The code's `gaps_count` as a closed double `Finset` sum (one count per
adjacent sorted pair with difference above 1). -/
def gapsFinset (sol : List Key) : Nat :=
  ∑ t ∈ (sol.map Key.t).toFinset, ∑ d ∈ (sol.map Key.d).toFinset,
    gapBools (sortPeriods (schedPeriods sol t d))

/-- The code's `preference_violations` as a single count over the
assignment list. -/
def specViolations (teachers : List Teacher) (sol : List Key) : Nat :=
  sol.countP fun k =>
    !(rawPrefPeriods teachers k.t).isEmpty &&
      !(rawPrefPeriods teachers k.t).contains k.p

/-- The periods a candidate assigns to (class `c`, subject `s`) on day
`d`. -/
def csdPeriods (sol : List Key) (c s d : Nat) : Finset Nat :=
  ((sol.filter fun k => k.c == c && k.s == s && k.d == d).map Key.p).toFinset

/-- The spec's consecutive-block shape for one day: the assigned period set
is a disjoint union of contiguous blocks of length exactly `B` (the
cardinality equation forces the blocks to be disjoint and to leave no loose
period). -/
def dayBlocksPartition (B : Nat) (ps : Finset Nat) : Prop :=
  ∃ starts ∈ (Finset.range 8).powerset,
    ps = starts.biUnion (fun st => Finset.image (st + ·) (Finset.range B)) ∧
    ps.card = B * starts.card

instance (B : Nat) (ps : Finset Nat) : Decidable (dayBlocksPartition B ps) := by
  unfold dayBlocksPartition
  infer_instance

/-- Per-teacher assignment count (`teacher_workload`). -/
def workloadOf (sol : List Key) (t : Nat) : Nat :=
  sol.countP fun k => k.t == t

/-- The positive per-teacher loads of a candidate (every active teacher's
load is positive). -/
def workloads (sol : List Key) : List Nat :=
  (solTeachers sol).map fun t => workloadOf sol t

/-- The spec's `teacher_workload_stdev` squared: the population variance of
the positive per-teacher loads (0 when at most one teacher is active).
Variance and standard deviation are ordered identically, so tie-break
comparisons can be phrased on the variance. -/
def workloadVariance (sol : List Key) : ℚ :=
  if (workloads sol).length ≤ 1 then 0
  else (((workloads sol).length : ℚ) *
      ((((workloads sol).map fun w => w * w).sum : Nat) : ℚ) -
      (((workloads sol).sum : Nat) : ℚ) ^ 2) /
    ((workloads sol).length : ℚ) ^ 2

/-- Chosen assignments of teacher `t` in room `r`. -/
def countTR (sol : List Key) (t r : Nat) : Nat :=
  sol.countP fun k => k.t == t && k.r == r

/-- The bonus the claim describes: the code's bonus terms plus `+1` per
assignment in one of the teacher's preferred rooms. -/
def claimBonusValue (inp : Input) (sol : List Key) : Nat :=
  ((teacherIds inp).map fun t =>
    let pr := prefsOf inp t
    (∑ d ∈ pr.preferred_days, 3 * countTD sol t d) +
    (∑ p ∈ pr.preferred_periods, 2 * countTP sol t p) +
    (∑ r ∈ pr.preferred_rooms, 1 * countTR sol t r)).sum

/-- The claimed objective value: bonus (with the room term) minus
penalty. -/
def claimObjectiveValue (inp : Input) (sol : List Key) : Int :=
  (claimBonusValue inp sol : Int) - (penaltyValue inp sol : Int)

/-- The per-assignment coefficient the solver objective actually gives a
chosen key. -/
def keyCoeff (inp : Input) (k : Key) : Int :=
  (if k.d ∈ (prefsOf inp k.t).preferred_days then 3 else 0) +
  (if k.p ∈ (prefsOf inp k.t).preferred_periods then 2 else 0) -
  (if k.p ∈ (prefsOf inp k.t).avoided_periods then 5 else 0) -
  (if (prefsOf inp k.t).prefers_morning = true ∧ 4 ≤ k.p then 2 else 0) -
  (if (prefsOf inp k.t).prefers_afternoon = true ∧ k.p < 4 then 2 else 0)

/-! ## Concrete test instances -/

/-- One class needing subjects 1 and 2 twice a week; only subject 2 has a
qualified teacher. -/
def inpA : Input where
  teachers := [⟨2, {}, {}⟩]
  rooms := [⟨1, some 30, []⟩]
  subjects := [⟨1, []⟩, ⟨2, []⟩]
  classes := [⟨1, some 10⟩]
  teacher_subjects := [(2, 2)]
  class_subjects := [⟨1, 1, some 2⟩, ⟨1, 2, some 2⟩]

/-- A model solution of `inpA`: both subject-2 periods placed, subject 1
silently unplaced. -/
def solA : List Key := [⟨1, 2, 2, 1, 0, 0⟩, ⟨1, 2, 2, 1, 0, 1⟩]

/-- One class, one required subject, and no qualification at all: every
required pair is infeasible. -/
def inpD : Input where
  teachers := [⟨2, {}, {}⟩]
  rooms := [⟨1, some 30, []⟩]
  subjects := [⟨1, []⟩]
  classes := [⟨1, some 10⟩]
  teacher_subjects := []
  class_subjects := [⟨1, 1, some 2⟩]

/-- The spec's scenario E5: one class, subject 1 four times a week with a
consecutive requirement of blocks of 2. -/
def inpE5 : Input where
  teachers := [⟨1, {}, {}⟩]
  rooms := [⟨1, some 30, []⟩]
  subjects := [⟨1, []⟩]
  classes := [⟨1, some 10⟩]
  teacher_subjects := [(1, 1)]
  class_subjects := [⟨1, 1, some 4⟩]
  consecutive_requirements := [⟨1, some 1, some 2⟩]

/-- A model solution of `inpE5` with four isolated periods — no
two-period block anywhere. -/
def solE5 : List Key :=
  [⟨1, 1, 1, 1, 0, 0⟩, ⟨1, 1, 1, 1, 0, 2⟩, ⟨1, 1, 1, 1, 1, 0⟩, ⟨1, 1, 1, 1, 1, 2⟩]

/-- One teacher teaching both subjects of one class once a week. -/
def inpB : Input where
  teachers := [⟨1, {}, {}⟩]
  rooms := [⟨1, some 30, []⟩]
  subjects := [⟨1, []⟩, ⟨2, []⟩]
  classes := [⟨1, some 10⟩]
  teacher_subjects := [(1, 1), (1, 2)]
  class_subjects := [⟨1, 1, some 1⟩, ⟨1, 2, some 1⟩]

/-- A model solution of `inpB` whose teacher teaches periods 0 and 3 of
day 0: one gap boundary spanning two empty periods. -/
def solB : List Key := [⟨1, 1, 1, 1, 0, 0⟩, ⟨1, 2, 1, 1, 0, 3⟩]

/-- One class needing subject 1 four times a week, two interchangeable
teachers. -/
def inpC8 : Input where
  teachers := [⟨1, {}, {}⟩, ⟨2, {}, {}⟩]
  rooms := [⟨1, some 30, []⟩]
  subjects := [⟨1, []⟩]
  classes := [⟨1, some 10⟩]
  teacher_subjects := [(1, 1), (2, 1)]
  class_subjects := [⟨1, 1, some 4⟩]

/-- `inpC8` solution with loads 3 and 1 (workload variance 1). -/
def solA8 : List Key :=
  [⟨1, 1, 1, 1, 0, 0⟩, ⟨1, 1, 1, 1, 0, 1⟩, ⟨1, 1, 1, 1, 0, 2⟩, ⟨1, 1, 2, 1, 0, 3⟩]

/-- `inpC8` solution with loads 2 and 2 (workload variance 0). -/
def solB8 : List Key :=
  [⟨1, 1, 1, 1, 0, 0⟩, ⟨1, 1, 1, 1, 0, 1⟩, ⟨1, 1, 2, 1, 0, 2⟩, ⟨1, 1, 2, 1, 0, 3⟩]

/-- One teacher with a preferred room and a preferred period, one required
lesson. -/
def inpC9 : Input where
  teachers := [⟨1, {}, { preferred_periods := [0], preferred_rooms := [1] }⟩]
  rooms := [⟨1, some 30, []⟩]
  subjects := [⟨1, []⟩]
  classes := [⟨1, some 10⟩]
  teacher_subjects := [(1, 1)]
  class_subjects := [⟨1, 1, some 1⟩]

/-- A model solution of `inpC9` in the preferred room but outside the
preferred period. -/
def solC9 : List Key := [⟨1, 1, 1, 1, 0, 5⟩]

/-- Room 1 has no capacity field, class 1 has no student count, class 2 has
ten students; room 2 requires nothing special but subject 1 needs feature
5, which only room 2 has. -/
def inpC10 : Input where
  teachers := [⟨1, {}, {}⟩]
  rooms := [⟨1, none, []⟩, ⟨2, some 30, [5]⟩]
  subjects := [⟨1, [5]⟩, ⟨2, []⟩]
  classes := [⟨1, none⟩, ⟨2, some 10⟩]
  teacher_subjects := [(1, 1), (1, 2)]
  class_subjects := [⟨1, 1, some 1⟩]

/-! ## Claim theorems -/

/-- Claim C2: every candidate the solver can return has at most one
assignment per (teacher, day, period), per (room, day, period) and per
(class, day, period). -/
theorem claim_C2 (inp : Input) (sol : List Key) (h : isCandidate inp sol) :
    (∀ t d p : Nat, countTDP sol t d p ≤ 1) ∧
    (∀ r d p : Nat, countRDP sol r d p ≤ 1) ∧
    (∀ c d p : Nat, countCDP sol c d p ≤ 1) := by
  obtain ⟨f, hnd, hsub, htc, hrc, hcc, -, -, -⟩ := h
  refine ⟨fun t d p => ?_, fun r d p => ?_, fun c d p => ?_⟩
  · by_cases hm : t ∈ teacherIds inp ∧ d ∈ days ∧ p ∈ periodsL
    · exact htc t hm.1 d hm.2.1 p hm.2.2
    · have hz : countTDP sol t d p = 0 := by
        rw [countTDP, List.countP_eq_zero]
        intro k hk hpred
        simp only [Bool.and_eq_true, beq_iff_eq] at hpred
        obtain ⟨⟨hkt, hkd⟩, hkp⟩ := hpred
        have h1 := mem_teacherIds_of_key (hsub k hk)
        have h2 := key_fields_mem (hsub k hk)
        exact hm ⟨hkt ▸ h1, hkd ▸ h2.2.2.1, hkp ▸ h2.2.2.2⟩
      omega
  · by_cases hm : r ∈ roomIds inp ∧ d ∈ days ∧ p ∈ periodsL
    · exact hrc r hm.1 d hm.2.1 p hm.2.2
    · have hz : countRDP sol r d p = 0 := by
        rw [countRDP, List.countP_eq_zero]
        intro k hk hpred
        simp only [Bool.and_eq_true, beq_iff_eq] at hpred
        obtain ⟨⟨hkr, hkd⟩, hkp⟩ := hpred
        have h2 := key_fields_mem (hsub k hk)
        exact hm ⟨hkr ▸ h2.2.1, hkd ▸ h2.2.2.1, hkp ▸ h2.2.2.2⟩
      omega
  · by_cases hm : c ∈ classIds inp ∧ d ∈ days ∧ p ∈ periodsL
    · exact hcc c hm.1 d hm.2.1 p hm.2.2
    · have hz : countCDP sol c d p = 0 := by
        rw [countCDP, List.countP_eq_zero]
        intro k hk hpred
        simp only [Bool.and_eq_true, beq_iff_eq] at hpred
        obtain ⟨⟨hkc, hkd⟩, hkp⟩ := hpred
        have h2 := key_fields_mem (hsub k hk)
        exact hm ⟨hkc ▸ h2.1, hkd ▸ h2.2.2.1, hkp ▸ h2.2.2.2⟩
      omega

/-- Witness for C2 on the concrete instance `inpA` with candidate
`solA`. -/
theorem claim_C2_witness :
    countTDP solA 2 0 0 ≤ 1 ∧ countRDP solA 1 0 0 ≤ 1 ∧
      countCDP solA 1 0 1 ≤ 1 := by
  have h := claim_C2 inpA solA (isCandidate_of_allFalse (by decide))
  exact ⟨h.1 2 0 0, h.2.1 1 0 0, h.2.2 1 0 1⟩

/-- Claim C5: in every candidate, each assignment's teacher is qualified
for its subject, its room passes the capacity and feature checks against
its class and subject, and its (day, period) lies in the teacher's resolved
available-period set. -/
theorem claim_C5 (inp : Input) (sol : List Key) (h : isCandidate inp sol) :
    ∀ k ∈ sol,
      (k.t, k.s) ∈ inp.teacher_subjects ∧
      (∃ rm, lookupLast Room.id inp.rooms k.r = some rm ∧
        studentCount inp k.c ≤ rm.capacity.getD 0 ∧
        ∀ f ∈ requiredFeatures inp k.s, f ∈ rm.features) ∧
      k.p ∈ availOf inp k.t k.d := by
  obtain ⟨f, hnd, hsub, -⟩ := h
  intro k hk
  obtain ⟨-, -, hq, hr, -, -, hav⟩ := mem_assignmentKeys.1 (hsub k hk)
  exact ⟨mem_qualifiedTeachers.1 hq, mem_suitableRooms.1 hr, hav⟩

/-- Witness for C5 on the concrete instance `inpA` with candidate `solA`
and its first assignment. -/
theorem claim_C5_witness :
    ((2 : Nat), (2 : Nat)) ∈ inpA.teacher_subjects ∧
    (∃ rm, lookupLast Room.id inpA.rooms 1 = some rm ∧
      studentCount inpA 1 ≤ rm.capacity.getD 0 ∧
      ∀ f ∈ requiredFeatures inpA 2, f ∈ rm.features) ∧
    (0 : Nat) ∈ availOf inpA 2 0 :=
  claim_C5 inpA solA (isCandidate_of_allFalse (by decide))
    ⟨1, 2, 2, 1, 0, 0⟩ (by decide)

/-- The requirement lookup agrees with the entries the frequency loop
iterates. -/
theorem reqP_mem_reqTriples {inp : Input} {c s P : Nat}
    (h : reqP inp c s = some P) : (c, s, P) ∈ reqTriples inp := by
  have h0 := h
  unfold reqP at h
  unfold reqTriples
  by_cases hemp : inp.class_subjects.isEmpty
  · rw [if_pos hemp] at h ⊢
    split at h
    · next hcs =>
        injection h with h2
        subst h2
        rw [List.mem_flatMap]
        exact ⟨c, hcs.1, List.mem_map.2 ⟨s, hcs.2, rfl⟩⟩
    · exact absurd h (by simp)
  · rw [if_neg hemp] at h ⊢
    obtain ⟨e, he, hP⟩ := Option.map_eq_some'.1 h
    have hef := List.mem_of_mem_getLast? he
    rw [List.mem_filter] at hef
    have hec : e.c = c ∧ e.s = s := by
      have h2 := hef.2
      simp only [Bool.and_eq_true, beq_iff_eq] at h2
      exact h2
    refine List.mem_map.2 ⟨(c, s), List.mem_dedup.2 ?_, ?_⟩
    · have hm := List.mem_map_of_mem (fun cs => (cs.c, cs.s)) hef.1
      simp only at hm
      rw [hec.1, hec.2] at hm
      exact hm
    · simp only
      rw [h0]
      simp

/-- Claim C1, counterexample: `solA` is a model solution of `inpA` the
solver can return, pair (class 1, subject 1) requires 2 periods a week, yet
the candidate assigns it none — the frequency constraint is skipped when
the pair got no decision variables. -/
theorem claim_C1_counterexample :
    isCandidate inpA solA ∧ reqP inpA 1 1 = some 2 ∧ countCS solA 1 1 ≠ 2 :=
  ⟨isCandidate_of_allFalse (by decide), by decide, by decide⟩

/-- Claim C1, amended: for every required (class, subject) pair for which
at least one decision variable was created, every candidate assigns the
pair exactly its `periods_per_week`. -/
theorem claim_C1_amended (inp : Input) (sol : List Key) (c s P : Nat)
    (h : isCandidate inp sol) (hreq : reqP inp c s = some P)
    (hvars : keysCS inp c s ≠ []) : countCS sol c s = P := by
  obtain ⟨f, -, -, -, -, -, hfreq, -, -⟩ := h
  exact hfreq (c, s, P) (reqP_mem_reqTriples hreq) hvars

/-- Witness for the amended C1 on `inpA` with candidate `solA` and the
feasible pair (class 1, subject 2). -/
theorem claim_C1_amended_witness : countCS solA 1 2 = 2 :=
  claim_C1_amended inpA solA 1 2 2 (isCandidate_of_allFalse (by decide))
    (by decide) (by decide)

/-- Claim C4, counterexample: in `inpA`, pair (class 1, subject 1) has no
qualified teacher, yet the engine raises nothing — it still creates
variables for the other pair and can return the non-empty candidate
`solA`. -/
theorem claim_C4_counterexample :
    qualifiedTeachers inpA 1 = [] ∧ reqP inpA 1 1 = some 2 ∧
    assignmentKeys inpA ≠ [] ∧ isCandidate inpA solA ∧ solA ≠ [] :=
  ⟨by decide, by decide, by decide, isCandidate_of_allFalse (by decide),
    by decide⟩

/-- Claim C4, amended: the engine never raises `InvalidInput`; a pair with
no qualified teacher or no suitable room merely gets no decision
variables, and only when that holds for every required pair is the
variable set empty (making `solve` return an empty list before solving). -/
theorem claim_C4_amended (inp : Input)
    (h : ∀ c ∈ classIds inp, ∀ sp ∈ requiredSubjects inp c,
      qualifiedTeachers inp sp.1 = [] ∨ suitableRooms inp sp.1 c = []) :
    assignmentKeys inp = [] := by
  unfold assignmentKeys
  rw [List.flatMap_eq_nil_iff]
  intro c hc
  rw [List.flatMap_eq_nil_iff]
  intro sp hsp
  rcases h c hc sp hsp with ht | hr
  · rw [ht]
    rfl
  · rw [List.flatMap_eq_nil_iff]
    intro t ht
    rw [hr]
    rfl

/-- Witness for the amended C4 on `inpD`, whose only required pair has no
qualified teacher. -/
theorem claim_C4_amended_witness : assignmentKeys inpD = [] :=
  claim_C4_amended inpD (by decide)

set_option maxRecDepth 8000 in
/-- Claim C3, code bug: the consecutive-period constraint the code posts
is vacuous (the block variables are never forced), so `solE5` — four
isolated periods of a subject that requires blocks of 2 — satisfies the
whole model even though its day-0 periods {0, 2} admit no partition into
contiguous blocks of length 2.  The code itself marks the constraint as
"simplified"; the spec's E5 scenario forbids such loose periods. -/
theorem claim_C3_bug :
    isCandidate inpE5 solE5 ∧ consB inpE5 1 1 = some 2 ∧
    countCS solE5 1 1 = 4 ∧
    ¬ dayBlocksPartition 2 (csdPeriods solE5 1 1 0) :=
  ⟨isCandidate_of_allFalse (by decide), by decide, by decide, by decide⟩

/-- Claim C10: a room record without a capacity field (treated as capacity
0) suits only classes of student count 0, and a class record without a
student count (treated as 0 students) passes every room's capacity check,
leaving the feature check as the only filter. -/
theorem claim_C10 (inp : Input) (s c r : Nat) (rm : Room) (cl : SchoolClass) :
    (lookupLast Room.id inp.rooms r = some rm → rm.capacity = none →
      r ∈ suitableRooms inp s c → studentCount inp c = 0) ∧
    (lookupLast SchoolClass.id inp.classes c = some cl →
      cl.student_count = none →
      ∀ r' ∈ roomIds inp, (r' ∈ suitableRooms inp s c ↔
        ∃ rm', lookupLast Room.id inp.rooms r' = some rm' ∧
          ∀ f ∈ requiredFeatures inp s, f ∈ rm'.features)) := by
  constructor
  · intro hlk hcap hsuit
    obtain ⟨rm', hlk', hle, -⟩ := mem_suitableRooms.1 hsuit
    rw [hlk] at hlk'
    injection hlk' with he
    rw [← he, hcap] at hle
    simpa using hle
  · intro hlk hcount r' hr'
    have hzero : studentCount inp c = 0 := by
      unfold studentCount
      rw [hlk]
      simp [hcount]
    constructor
    · rintro hsuit
      obtain ⟨rm', hlk', -, hfeat⟩ := mem_suitableRooms.1 hsuit
      exact ⟨rm', hlk', hfeat⟩
    · rintro ⟨rm', hlk', hfeat⟩
      exact mem_suitableRooms.2 ⟨rm', hlk', by rw [hzero]; exact Nat.zero_le _,
        hfeat⟩

/-- Witness for C10 on `inpC10`: capacity-less room 1 is suitable for the
count-less class 1, whose student count resolves to 0; and for class 1 the
suitability of room 2 reduces to the feature check. -/
theorem claim_C10_witness :
    studentCount inpC10 1 = 0 ∧
    ((2 : Nat) ∈ suitableRooms inpC10 1 1 ↔
      ∃ rm', lookupLast Room.id inpC10.rooms 2 = some rm' ∧
        ∀ f ∈ requiredFeatures inpC10 1, f ∈ rm'.features) :=
  ⟨(claim_C10 inpC10 2 1 1 ⟨1, none, []⟩ ⟨1, none⟩).1 (by decide) rfl
      (by decide),
    (claim_C10 inpC10 1 1 2 ⟨1, none, []⟩ ⟨1, none⟩).2 (by decide) rfl 2
      (by decide)⟩

/-! ## Properties of the final sort -/

theorem insertCand_perm (x : Candidate) (l : List Candidate) :
    (insertCand x l).Perm (x :: l) := by
  induction l with
  | nil => exact List.Perm.refl _
  | cons y ys ih =>
      unfold insertCand
      split
      · exact List.Perm.refl _
      · exact (ih.cons y).trans (List.Perm.swap x y ys)

theorem insertCand_sorted (x : Candidate) (l : List Candidate)
    (h : List.Sorted
      (fun a b => b.metrics.total_score ≤ a.metrics.total_score) l) :
    List.Sorted (fun a b => b.metrics.total_score ≤ a.metrics.total_score)
      (insertCand x l) := by
  induction l with
  | nil => simp [insertCand]
  | cons y ys ih =>
      rw [List.sorted_cons] at h
      unfold insertCand
      split
      · next hle =>
          rw [List.sorted_cons]
          refine ⟨fun b hb => ?_, List.sorted_cons.2 h⟩
          rcases List.mem_cons.1 hb with hb | hb
          · exact hb ▸ hle
          · exact le_trans (h.1 b hb) hle
      · next hgt =>
          rw [List.sorted_cons]
          refine ⟨fun b hb => ?_, ih h.2⟩
          rcases List.mem_cons.1 ((insertCand_perm x ys).mem_iff.1 hb) with
            hb | hb
          · exact hb ▸ le_of_lt (lt_of_not_le hgt)
          · exact h.1 b hb

theorem filter_insertCand (x : Candidate) (l : List Candidate) (v : Int) :
    (insertCand x l).filter (fun cand => cand.metrics.total_score == v) =
      if x.metrics.total_score = v then
        x :: l.filter (fun cand => cand.metrics.total_score == v)
      else l.filter (fun cand => cand.metrics.total_score == v) := by
  induction l with
  | nil =>
      by_cases hx : x.metrics.total_score = v <;>
        simp [insertCand, List.filter_cons, hx]
  | cons y ys ih =>
      unfold insertCand
      split
      · next hle =>
          by_cases hx : x.metrics.total_score = v <;>
            simp [List.filter_cons, hx]
      · next hgt =>
          rw [List.filter_cons, ih]
          by_cases hx : x.metrics.total_score = v
          · have hy : ¬ y.metrics.total_score = v := by
              have hlt := lt_of_not_le hgt
              rw [hx] at hlt
              exact ne_of_gt hlt
            simp [hx, hy, List.filter_cons]
          · simp [hx, List.filter_cons]

/-- The sort keeps every score class in collection order (stability). -/
theorem sortCandidates_filter (l : List Candidate) (v : Int) :
    (sortCandidates l).filter (fun cand => cand.metrics.total_score == v) =
      l.filter (fun cand => cand.metrics.total_score == v) := by
  induction l with
  | nil => rfl
  | cons x xs ih =>
      unfold sortCandidates
      rw [filter_insertCand, List.filter_cons]
      by_cases hx : x.metrics.total_score = v <;> simp [hx, ih]

/-! ## The metrics pipeline as closed formulas -/

/-- The dict-grouped gap computation equals the closed double-sum form. -/
theorem gapsCount_eq_finset (sol : List Key) : gapsCount sol = gapsFinset sol := by
  unfold gapsCount gapsFinset solTeachers solDays
  rw [sum_map_dedup]
  refine Finset.sum_congr rfl ?_
  intro t ht
  rw [sum_map_dedup]
  refine Finset.sum_subset ?_ ?_
  · intro d hd
    rw [List.mem_toFinset, List.mem_map] at hd
    obtain ⟨k, hk, hkd⟩ := hd
    rw [List.mem_toFinset, List.mem_map]
    exact ⟨k, (List.mem_filter.1 hk).1, hkd⟩
  · intro d hd hnd
    have hfe : sol.filter (fun k => k.t == t && k.d == d) = [] := by
      rw [List.filter_eq_nil_iff]
      intro k hk hp
      simp only [Bool.and_eq_true, beq_iff_eq] at hp
      apply hnd
      rw [List.mem_toFinset, List.mem_map]
      exact ⟨k, List.mem_filter.2 ⟨hk, by simp [hp.1]⟩, hp.2⟩
    rw [schedPeriods, hfe]
    rfl

/-- One teacher's violation rows summed over their days count exactly the
teacher's offending assignments. -/
theorem violations_per_teacher (T : List Teacher) (sol : List Key) (t : Nat) :
    ((((sol.filter fun k => k.t == t).map Key.d).dedup).map fun d =>
      (sortPeriods (schedPeriods sol t d)).countP fun p =>
        !(rawPrefPeriods T t).contains p).sum =
    sol.countP fun k => k.t == t && !(rawPrefPeriods T t).contains k.p := by
  rw [sum_map_dedup]
  have h1 : ∀ d, (sortPeriods (schedPeriods sol t d)).countP
      (fun p => !(rawPrefPeriods T t).contains p) =
      sol.countP fun k =>
        (!(rawPrefPeriods T t).contains k.p && k.t == t) && k.d == d := by
    intro d
    rw [(sortPeriods_perm _).countP_eq, schedPeriods, List.countP_map,
      List.countP_filter]
    apply List.countP_congr
    intro k hk
    by_cases hc : k.p ∈ rawPrefPeriods T t <;> by_cases htk : k.t = t <;>
      by_cases hdk : k.d = d <;> simp [Function.comp, hc, htk, hdk]
  rw [Finset.sum_congr rfl (fun d _ => h1 d)]
  rw [sum_countP_mem sol Key.d
    (fun k => !(rawPrefPeriods T t).contains k.p && k.t == t)]
  apply List.countP_congr
  intro k hk
  by_cases htk : k.t = t
  · have hmem : k.d ∈ ((sol.filter fun k => k.t == t).map Key.d).toFinset := by
      rw [List.mem_toFinset, List.mem_map]
      exact ⟨k, List.mem_filter.2 ⟨hk, by simp [htk]⟩, rfl⟩
    by_cases hc : k.p ∈ rawPrefPeriods T t <;> simp [htk, hmem, hc]
  · simp [htk]

/-- The dict-grouped violation computation equals the single count over
the assignment list. -/
theorem violationsCount_eq (T : List Teacher) (sol : List Key) :
    violationsCount T sol = specViolations T sol := by
  unfold violationsCount specViolations solTeachers solDays
  rw [sum_map_dedup]
  have h2 : ∀ t, (if (rawPrefPeriods T t).isEmpty then 0
      else ((((sol.filter fun k => k.t == t).map Key.d).dedup).map fun d =>
        (sortPeriods (schedPeriods sol t d)).countP fun p =>
          !(rawPrefPeriods T t).contains p).sum) =
      sol.countP fun k => k.t == t &&
        (!(rawPrefPeriods T t).isEmpty && !(rawPrefPeriods T t).contains k.p) := by
    intro t
    by_cases hemp : (rawPrefPeriods T t).isEmpty
    · rw [if_pos hemp]
      symm
      rw [List.countP_eq_zero]
      intro k hk
      simp [hemp]
    · rw [if_neg hemp, violations_per_teacher T sol t]
      apply List.countP_congr
      intro k hk
      by_cases htk : k.t = t <;>
        by_cases hc : k.p ∈ rawPrefPeriods T t <;> simp [htk, hc, hemp]
  rw [Finset.sum_congr rfl (fun t _ => h2 t)]
  exact sum_countP_fiber sol Key.t
    (fun t k => !(rawPrefPeriods T t).isEmpty &&
      !(rawPrefPeriods T t).contains k.p)
    _ (fun k hk => by rw [List.mem_toFinset, List.mem_map]; exact ⟨k, hk, rfl⟩)

/-- Claim C8, counterexample: `solA8` and `solB8` are both candidates of
`inpC8` with equal total score 40, `solB8` has the strictly smaller
workload variance (hence the smaller `teacher_workload_stdev`), yet when
the collector finds `solA8` first the returned order keeps `solA8` first —
the code breaks ties by discovery order, not by stdev or fingerprint. -/
theorem claim_C8_counterexample :
    isCandidate inpC8 solA8 ∧ isCandidate inpC8 solB8 ∧
    sortCandidates
        [mkCandidate inpC8.teachers solA8, mkCandidate inpC8.teachers solB8] =
      [mkCandidate inpC8.teachers solA8, mkCandidate inpC8.teachers solB8] ∧
    (mkCandidate inpC8.teachers solA8).metrics.total_score =
      (mkCandidate inpC8.teachers solB8).metrics.total_score ∧
    workloadVariance solB8 < workloadVariance solA8 := by
  refine ⟨isCandidate_of_allFalse (by decide),
    isCandidate_of_allFalse (by decide), by decide, by decide, ?_⟩
  have hA : workloadVariance solA8 = 1 := by
    rw [workloadVariance, (by decide : workloads solA8 = [3, 1])]
    norm_num
  have hB : workloadVariance solB8 = 0 := by
    rw [workloadVariance, (by decide : workloads solB8 = [2, 2])]
    norm_num
  rw [hA, hB]
  norm_num

/-- Claim C8, amended: the returned list is sorted by `total_score`
descending and is a permutation of the collected list; candidates of equal
score keep their collection (discovery) order — there is no further
tie-break. -/
theorem claim_C8_amended (l : List Candidate) :
    List.Sorted (fun a b => b.metrics.total_score ≤ a.metrics.total_score)
      (sortCandidates l) ∧
    (sortCandidates l).Perm l ∧
    ∀ v : Int,
      (sortCandidates l).filter (fun cand => cand.metrics.total_score == v) =
        l.filter (fun cand => cand.metrics.total_score == v) := by
  refine ⟨?_, ?_, sortCandidates_filter l⟩
  · induction l with
    | nil => simp [sortCandidates]
    | cons x xs ih => exact insertCand_sorted x (sortCandidates xs) ih
  · induction l with
    | nil => exact List.Perm.refl _
    | cons x xs ih =>
        exact (insertCand_perm x (sortCandidates xs)).trans (ih.cons x)

/-- Claim C6, counterexample: `solB` is a candidate of `inpB` whose
teacher teaches periods 0 and 3 of day 0; the code reports `gaps_count = 1`
(one boundary with a jump) while the claimed adjacent-difference sum is 2
(two empty periods). -/
theorem claim_C6_counterexample :
    isCandidate inpB solB ∧
    (calcMetrics inpB.teachers solB).gaps_count = 1 ∧
    specGapsTotal solB = 2 ∧
    (calcMetrics inpB.teachers solB).gaps_count ≠ specGapsTotal solB :=
  ⟨isCandidate_of_allFalse (by decide), by decide, by decide, by decide⟩

/-- Claim C9, counterexample: in `inpC9` the teacher prefers room 1 and
the solution `solC9` uses it, but the code's objective gives it value 0
while the claimed objective (with the +1 preferred-room bonus) gives 1 —
`preferred_rooms` never reaches the objective. -/
theorem claim_C9_counterexample :
    isCandidate inpC9 solC9 ∧ objectiveValue inpC9 solC9 = 0 ∧
    claimObjectiveValue inpC9 solC9 = 1 ∧
    objectiveValue inpC9 solC9 ≠ claimObjectiveValue inpC9 solC9 :=
  ⟨isCandidate_of_allFalse (by decide), by decide, by decide, by decide⟩

/-- Claim C6, amended: the returned `gaps_count` counts, for each teacher
and day, the adjacent pairs of the ascending-sorted assigned periods whose
difference exceeds 1 — one per gap boundary, not the summed widths. -/
theorem claim_C6_amended (T : List Teacher) (sol : List Key) :
    (calcMetrics T sol).gaps_count = gapsFinset sol :=
  gapsCount_eq_finset sol

/-- Claim C7: the returned `total_score` is exactly
`10·total_assignments − 5·gaps_count − 2·preference_violations`, each term
recomputed from the candidate's own assignment list and the teachers'
preference documents. -/
theorem claim_C7 (T : List Teacher) (sol : List Key) :
    (calcMetrics T sol).total_score =
      10 * (sol.length : Int) - 5 * (gapsFinset sol : Int) -
        2 * (specViolations T sol : Int) := by
  show (sol.length : Int) * 10 - (gapsCount sol : Int) * 5 -
      (violationsCount T sol : Int) * 2 = _
  rw [gapsCount_eq_finset, violationsCount_eq]
  ring

/-! ## The objective as a per-assignment coefficient sum -/

/-- Bool-to-integer indicator. -/
def b2i (b : Bool) : Int := if b then 1 else 0

theorem keyCoeff_eq (inp : Input) (k : Key) :
    keyCoeff inp k =
      3 * b2i (decide (k.d ∈ (prefsOf inp k.t).preferred_days)) +
      2 * b2i (decide (k.p ∈ (prefsOf inp k.t).preferred_periods)) -
      5 * b2i (decide (k.p ∈ (prefsOf inp k.t).avoided_periods)) -
      2 * b2i ((prefsOf inp k.t).prefers_morning && decide (4 ≤ k.p)) -
      2 * b2i ((prefsOf inp k.t).prefers_afternoon && decide (k.p < 4)) := by
  unfold keyCoeff b2i
  by_cases h1 : k.d ∈ (prefsOf inp k.t).preferred_days <;>
  by_cases h2 : k.p ∈ (prefsOf inp k.t).preferred_periods <;>
  by_cases h3 : k.p ∈ (prefsOf inp k.t).avoided_periods <;>
  by_cases h4 : (prefsOf inp k.t).prefers_morning = true <;>
  by_cases h5 : (prefsOf inp k.t).prefers_afternoon = true <;>
  by_cases h6 : 4 ≤ k.p <;>
    simp [h1, h2, h3, h4, h5, h6, Nat.not_le, Nat.lt_iff_add_one_le]

theorem cast_countP_ite (p : Bool) :
    ((if p = true then 1 else 0 : Nat) : Int) = b2i p := by
  cases p <;> simp [b2i]

theorem sum_keyCoeff (inp : Input) (sol : List Key) :
    (sol.map (keyCoeff inp)).sum =
      3 * ((sol.countP fun a =>
        decide (a.d ∈ (prefsOf inp a.t).preferred_days)) : Int) +
      2 * ((sol.countP fun a =>
        decide (a.p ∈ (prefsOf inp a.t).preferred_periods)) : Int) -
      5 * ((sol.countP fun a =>
        decide (a.p ∈ (prefsOf inp a.t).avoided_periods)) : Int) -
      2 * ((sol.countP fun a =>
        (prefsOf inp a.t).prefers_morning && decide (4 ≤ a.p)) : Int) -
      2 * ((sol.countP fun a =>
        (prefsOf inp a.t).prefers_afternoon && decide (a.p < 4)) : Int) := by
  induction sol with
  | nil => simp
  | cons k l ih =>
      simp only [List.map_cons, List.sum_cons, List.countP_cons, ih,
        keyCoeff_eq, Nat.cast_add, cast_countP_ite]
      ring

/-- The value of the bonus terms, collapsed to per-assignment counts. -/
theorem bonusValue_eq (inp : Input) (sol : List Key)
    (h : ∀ k ∈ sol, k.t ∈ teacherIds inp) :
    bonusValue inp sol =
      3 * (sol.countP fun a =>
        decide (a.d ∈ (prefsOf inp a.t).preferred_days)) +
      2 * (sol.countP fun a =>
        decide (a.p ∈ (prefsOf inp a.t).preferred_periods)) := by
  have hmem : ∀ k ∈ sol, k.t ∈ (inp.teachers.map Teacher.id).toFinset :=
    fun k hk => List.mem_toFinset.2 (List.mem_dedup.1 (h k hk))
  unfold bonusValue countTD countTP teacherIds idsOf
  rw [sum_map_dedup, Finset.sum_add_distrib]
  congr 1
  · have h1 : ∀ t, (∑ d ∈ (prefsOf inp t).preferred_days,
        3 * sol.countP fun k => k.t == t && k.d == d) =
        3 * sol.countP fun a =>
          a.t == t && decide (a.d ∈ (prefsOf inp t).preferred_days) := by
      intro t
      rw [← Finset.mul_sum]
      congr 1
      exact sum_countP_mem sol Key.d (fun a => a.t == t) _
    rw [Finset.sum_congr rfl (fun t _ => h1 t), ← Finset.mul_sum]
    congr 1
    exact sum_countP_fiber sol Key.t
      (fun t a => decide (a.d ∈ (prefsOf inp t).preferred_days)) _ hmem
  · have h2 : ∀ t, (∑ p ∈ (prefsOf inp t).preferred_periods,
        2 * sol.countP fun k => k.t == t && k.p == p) =
        2 * sol.countP fun a =>
          a.t == t && decide (a.p ∈ (prefsOf inp t).preferred_periods) := by
      intro t
      rw [← Finset.mul_sum]
      congr 1
      exact sum_countP_mem sol Key.p (fun a => a.t == t) _
    rw [Finset.sum_congr rfl (fun t _ => h2 t), ← Finset.mul_sum]
    congr 1
    exact sum_countP_fiber sol Key.t
      (fun t a => decide (a.p ∈ (prefsOf inp t).preferred_periods)) _ hmem

/-- The value of the penalty terms, collapsed to per-assignment counts. -/
theorem penaltyValue_eq (inp : Input) (sol : List Key)
    (h : ∀ k ∈ sol, k.t ∈ teacherIds inp) :
    penaltyValue inp sol =
      5 * (sol.countP fun a =>
        decide (a.p ∈ (prefsOf inp a.t).avoided_periods)) +
      2 * (sol.countP fun a =>
        (prefsOf inp a.t).prefers_morning && decide (4 ≤ a.p)) +
      2 * (sol.countP fun a =>
        (prefsOf inp a.t).prefers_afternoon && decide (a.p < 4)) := by
  have hmem : ∀ k ∈ sol, k.t ∈ (inp.teachers.map Teacher.id).toFinset :=
    fun k hk => List.mem_toFinset.2 (List.mem_dedup.1 (h k hk))
  unfold penaltyValue countTP teacherIds idsOf
  rw [sum_map_dedup, Finset.sum_add_distrib, Finset.sum_add_distrib]
  congr 1
  congr 1
  · have h3 : ∀ t, (∑ p ∈ (prefsOf inp t).avoided_periods,
        5 * sol.countP fun k => k.t == t && k.p == p) =
        5 * sol.countP fun a =>
          a.t == t && decide (a.p ∈ (prefsOf inp t).avoided_periods) := by
      intro t
      rw [← Finset.mul_sum]
      congr 1
      exact sum_countP_mem sol Key.p (fun a => a.t == t) _
    rw [Finset.sum_congr rfl (fun t _ => h3 t), ← Finset.mul_sum]
    congr 1
    exact sum_countP_fiber sol Key.t
      (fun t a => decide (a.p ∈ (prefsOf inp t).avoided_periods)) _ hmem
  · have h4 : ∀ t, (if (prefsOf inp t).prefers_morning then
        2 * sol.countP fun k => k.t == t && decide (4 ≤ k.p) else 0) =
        2 * sol.countP fun a => a.t == t &&
          ((prefsOf inp t).prefers_morning && decide (4 ≤ a.p)) := by
      intro t
      by_cases hm : (prefsOf inp t).prefers_morning = true
      · rw [if_pos hm]
        congr 1
        apply List.countP_congr
        intro k hk
        simp [hm]
      · rw [if_neg hm]
        have hz : (sol.countP fun a => a.t == t &&
            ((prefsOf inp t).prefers_morning && decide (4 ≤ a.p))) = 0 := by
          rw [List.countP_eq_zero]
          intro k hk
          simp [Bool.eq_false_iff.2 hm]
        rw [hz]
    rw [Finset.sum_congr rfl (fun t _ => h4 t), ← Finset.mul_sum]
    congr 1
    exact sum_countP_fiber sol Key.t
      (fun t a => (prefsOf inp t).prefers_morning && decide (4 ≤ a.p)) _ hmem
  · have h5 : ∀ t, (if (prefsOf inp t).prefers_afternoon then
        2 * sol.countP fun k => k.t == t && decide (k.p < 4) else 0) =
        2 * sol.countP fun a => a.t == t &&
          ((prefsOf inp t).prefers_afternoon && decide (a.p < 4)) := by
      intro t
      by_cases hm : (prefsOf inp t).prefers_afternoon = true
      · rw [if_pos hm]
        congr 1
        apply List.countP_congr
        intro k hk
        simp [hm]
      · rw [if_neg hm]
        have hz : (sol.countP fun a => a.t == t &&
            ((prefsOf inp t).prefers_afternoon && decide (a.p < 4))) = 0 := by
          rw [List.countP_eq_zero]
          intro k hk
          simp [Bool.eq_false_iff.2 hm]
        rw [hz]
    rw [Finset.sum_congr rfl (fun t _ => h5 t), ← Finset.mul_sum]
    congr 1
    exact sum_countP_fiber sol Key.t
      (fun t a => (prefsOf inp t).prefers_afternoon && decide (a.p < 4)) _ hmem

/-- Claim C9, amended: the maximized objective gives each chosen
assignment exactly `+3` on a preferred day, `+2` in a preferred period,
`−5` in an avoided period and `−2` against a morning/afternoon
preference; a preferred room contributes nothing. -/
theorem claim_C9_amended (inp : Input) (sol : List Key)
    (h : ∀ k ∈ sol, k.t ∈ teacherIds inp) :
    objectiveValue inp sol = (sol.map (keyCoeff inp)).sum := by
  rw [objectiveValue, bonusValue_eq inp sol h, penaltyValue_eq inp sol h,
    sum_keyCoeff]
  push_cast
  ring

/-- Witness for the amended C9 on `inpC9` with candidate `solC9`. -/
theorem claim_C9_amended_witness :
    objectiveValue inpC9 solC9 = (solC9.map (keyCoeff inpC9)).sum :=
  claim_C9_amended inpC9 solC9 (by decide)

end EduSchedule
